import Mathlib

/-!
# The DFA character driver (`minix/drivers/dfa/dfa.c`)

A shallow embedding of the driver's state and request handlers, and the
properties of the automaton engine proved (or refuted) on it.

Conventions of the embedding.

* The target is MINIX on i386: `char` is 8 bits and signed, `int` is 32 bits
  two's complement, storing an `int` into a `char` keeps the low 8 bits.
  The driver itself tests `input < 0` on its `char`s.
* The three statics `states`, `accepting_states`, `current_state` are the
  fields of `Store`; every handler takes the store and gives the new one.
* Subscripting an array outside `0 .. MAX_STATES-1` is undefined behaviour in C;
  the handlers are `Option`-valued and give `none` there.
* `sys_safecopyfrom` / `sys_safecopyto` are kernel calls: the status they
  answer and the caller memory behind the grant are inputs (`Grant`).
* Lengths (`size_t`) are natural numbers; the stack room for the
  variable-length buffers is not modelled.
-/

namespace Dfa

set_option autoImplicit false

/-! ## Machine integers -/

/-- A C `char` of the target: a signed 8-bit value. -/
abbrev CChar := { v : Int // -128 ≤ v ∧ v ≤ 127 }

/-- A C `int` of the target: a signed 32-bit value. -/
abbrev CInt := { v : Int // -2147483648 ≤ v ∧ v ≤ 2147483647 }

/-- Conversion of an `int` value to `char` on assignment: the low 8 bits, read as signed. -/
def toChar (v : Int) : CChar :=
  ⟨(v + 128) % 256 - 128, by omega⟩

/-- Integer promotion of a `char` to `int`: the value is kept (sign extension). -/
def CChar.toCInt (c : CChar) : CInt :=
  ⟨c.val, by have := c.property; omega⟩

/-- The `int` constant `n` for a literal in range. -/
def CInt.lit (n : Int) (h : -2147483648 ≤ n ∧ n ≤ 2147483647) : CInt := ⟨n, h⟩

/-- The `char` whose bit pattern is the byte `n` (0..255). -/
def CChar.ofByte (n : Nat) : CChar := toChar (n : Int)

/-- The character constant `'Y'`. -/
def charY : CChar := ⟨89, by decide⟩

/-- The character constant `'N'`. -/
def charN : CChar := ⟨78, by decide⟩

/-- The constant `#define MAX_STATES 256`. -/
def MAX_STATES : Int := 256

/-- The status `OK` of `<minix/const.h>`. -/
def OK : Int := 0

/-- The error `ENOTTY` of `<errno.h>` as system code sees it (`_SIGN 25`). -/
def ENOTTY : Int := -25

/-! ## The state store -/

/-- The driver's three statics: `char states[MAX_STATES][MAX_STATES]`,
`int accepting_states[MAX_STATES]` and `int current_state`. -/
structure Store where
  states : Fin 256 → Fin 256 → CChar
  accepting_states : Fin 256 → CInt
  current_state : CInt

/-- A subscript into an array of `MAX_STATES` elements: defined only inside `0 .. MAX_STATES-1`. -/
def subscript (i : Int) : Option (Fin 256) :=
  if h : 0 ≤ i ∧ i < MAX_STATES then some ⟨i.toNat, by unfold MAX_STATES at h; omega⟩ else none

/-- The rvalue `states[i][j]`. -/
def Store.readStates (S : Store) (i j : Int) : Option CChar := do
  let a ← subscript i
  let b ← subscript j
  pure (S.states a b)

/-- The assignment `states[i][j] = v`, with `v` an `int` converted to the `char` cell. -/
def Store.writeStates (S : Store) (i j : Int) (v : Int) : Option Store := do
  let a ← subscript i
  let b ← subscript j
  pure { S with states := fun x y => if x = a ∧ y = b then toChar v else S.states x y }

/-- The rvalue `accepting_states[i]`. -/
def Store.readAccepting (S : Store) (i : Int) : Option CInt := do
  let a ← subscript i
  pure (S.accepting_states a)

/-- The assignment `accepting_states[i] = v`. -/
def Store.writeAccepting (S : Store) (i : Int) (v : CInt) : Option Store := do
  let a ← subscript i
  pure { S with accepting_states := fun x => if x = a then v else S.accepting_states x }

/-! ## The transport -/

/-- What stands behind an `(endpoint, grant)` pair during one request: the status
the kernel answers the safe copy with, and the caller memory by offset. -/
structure Grant where
  status : Int
  mem : Nat → CChar

/-- The call `sys_safecopyfrom(ep, gid, 0, buffer, size)`: the status, and the
`size` bytes at offset 0 of the caller memory, which fill the buffer. -/
def sys_safecopyfrom (g : Grant) (size : Nat) : Int × List CChar :=
  (g.status, (List.range size).map g.mem)

/-- A diagnostic line written by `printf`. -/
inductive Diag where
  | addTransition (state alph : Int)
  | acceptingState (state_index : Int)
  deriving DecidableEq, Repr

/-- What a handler leaves behind: the store, the value it returns, the bytes that
reached the caller through `sys_safecopyto` (if any) and the lines printed. -/
structure Outcome where
  store : Store
  ret : Int
  delivered : Option (List CChar)
  console : List Diag

/-! ## Read and write -/

/-- The index computed from a `char`: `c < 0 ? MAX_STATES + c : c`. -/
def in_range (c : CChar) : Int :=
  if c.val < 0 then MAX_STATES + c.val else c.val

/-- The body of the loop of `dfa_write` for one buffer element `input`. -/
def write_step (S : Store) (input : CChar) : Option Store := do
  let input_in_range := in_range input
  let cell ← S.readStates S.current_state.val input_in_range
  pure { S with current_state := cell.toCInt }

/-- The handler `dfa_write`. -/
def dfa_write (S : Store) (g : Grant) (size : Nat) : Option Outcome :=
  let (r, buffer) := sys_safecopyfrom g size
  if r ≠ OK then
    some { store := S, ret := r, delivered := none, console := [] }
  else do
    let S' ← buffer.foldlM write_step S
    pure { store := S', ret := (size : Int), delivered := none, console := [] }

/-- The loop `for (i = 0; i < size; i++) buffer[i] = x;` from index `i` on,
with `todo` iterations left. -/
def fill_loop (x : CChar) : Nat → Nat → List CChar → List CChar
  | 0, _, buffer => buffer
  | todo + 1, i, buffer => fill_loop x todo (i + 1) (buffer.set i x)

/-- The handler `dfa_read`; `junk` is the indeterminate initial content of the
local `buffer`. -/
def dfa_read (S : Store) (g : Grant) (size : Nat) (junk : Nat → CChar) : Option Outcome := do
  let buffer := (List.range size).map junk
  let acc ← S.readAccepting S.current_state.val
  let x := if acc.val = 1 then charY else charN
  let buffer := fill_loop x size 0 buffer
  let r := g.status
  if r ≠ OK then
    pure { store := S, ret := r, delivered := none, console := [] }
  else
    pure { store := S, ret := (size : Int), delivered := some buffer, console := [] }

/-! ## The control requests -/

/-- The function `do_dfa_reset`. -/
def do_dfa_reset (S : Store) : Outcome :=
  { store := { S with current_state := CInt.lit 0 (by decide) },
    ret := OK, delivered := none, console := [] }

/-- The function `do_dfa_add`. -/
def do_dfa_add (S : Store) (g : Grant) : Option Outcome :=
  let (r, triple) := sys_safecopyfrom g 3
  if r ≠ OK then
    some { store := S, ret := r, delivered := none, console := [] }
  else do
    let triple0 ← triple[0]?
    let triple1 ← triple[1]?
    let triple2 ← triple[2]?
    let state := in_range triple0
    let alph := in_range triple1
    let console := if state < 0 ∨ alph < 0 then [Diag.addTransition state alph] else []
    let S' ← S.writeStates state alph (in_range triple2)
    let out := do_dfa_reset S'
    pure { out with console := console ++ out.console }

/-- The function `do_dfa_accept`. -/
def do_dfa_accept (S : Store) (g : Grant) : Option Outcome :=
  let (r, buf) := sys_safecopyfrom g 1
  if r ≠ OK then
    some { store := S, ret := r, delivered := none, console := [] }
  else do
    let state ← buf[0]?
    let state_index := in_range state
    let console := if state_index < 0 then [Diag.acceptingState state_index] else []
    let S' ← S.writeAccepting state_index (CInt.lit 1 (by decide))
    pure { store := S', ret := OK, delivered := none, console := console }

/-- The function `do_dfa_reject`. -/
def do_dfa_reject (S : Store) (g : Grant) : Option Outcome :=
  let (r, buf) := sys_safecopyfrom g 1
  if r ≠ OK then
    some { store := S, ret := r, delivered := none, console := [] }
  else do
    let state ← buf[0]?
    let state_index := in_range state
    let S' ← S.writeAccepting state_index (CInt.lit 0 (by decide))
    pure { store := S', ret := OK, delivered := none, console := [] }

/-- The request codes of `<sys/ioc_dfa.h>`, a header outside the driver's file:
taken as given. -/
structure IocDfa where
  DFAIOCRESET : Nat
  DFAIOCADD : Nat
  DFAIOCACCEPT : Nat
  DFAIOCREJECT : Nat

/-- The handler `dfa_ioctl`: the `switch` tries its cases in the order written. -/
def dfa_ioctl (ioc : IocDfa) (S : Store) (request : Nat) (g : Grant) : Option Outcome :=
  if request = ioc.DFAIOCRESET then
    some (do_dfa_reset S)
  else if request = ioc.DFAIOCADD then
    do_dfa_add S g
  else if request = ioc.DFAIOCACCEPT then
    do_dfa_accept S g
  else if request = ioc.DFAIOCREJECT then
    do_dfa_reject S g
  else
    some { store := S, ret := ENOTTY, delivered := none, console := [] }

/-! ## Live update: the data store and the snapshot -/

/-- The byte a `char` occupies in memory. -/
def CChar.byte (c : CChar) : Nat := (c.val % 256).toNat

/-- The conversion of an `int` to `u32_t` (also the 32 bits it occupies in memory). -/
def CInt.bits (v : CInt) : Nat := (v.val % 4294967296).toNat

/-- The conversion `(int) u` of a `u32_t`. -/
def CInt.ofBits (u : Nat) : CInt :=
  ⟨((u : Int) + 2147483648) % 4294967296 - 2147483648, by omega⟩

/-- Byte `k` (0..3, least significant first) of an `int` in memory. -/
def CInt.byte (v : CInt) (k : Nat) : Nat := v.bits / 256 ^ k % 256

/-- The `sizeof(states)` bytes of the object `states`, row after row. -/
def statesImage (states : Fin 256 → Fin 256 → CChar) : List Nat :=
  List.ofFn fun (k : Fin 65536) =>
    (states ⟨k.val / 256, by have := k.isLt; omega⟩ ⟨k.val % 256, by omega⟩).byte

/-- The `sizeof(accepting_states)` bytes of the object `accepting_states`. -/
def acceptingImage (acc : Fin 256 → CInt) : List Nat :=
  List.ofFn fun (k : Fin 1024) =>
    (acc ⟨k.val / 4, by have := k.isLt; omega⟩).byte (k.val % 4)

/-- The object `states` after the bytes `blob` were copied over its beginning. -/
def loadStates (blob : List Nat) (old : Fin 256 → Fin 256 → CChar) :
    Fin 256 → Fin 256 → CChar :=
  fun i j =>
    match blob[i.val * 256 + j.val]? with
    | some b => CChar.ofByte b
    | none => old i j

/-- The object `accepting_states` after the bytes `blob` were copied over its beginning. -/
def loadAccepting (blob : List Nat) (old : Fin 256 → CInt) : Fin 256 → CInt :=
  fun i =>
    let b := fun (k : Nat) => (blob[4 * i.val + k]?).getD ((old i).byte k) % 256
    CInt.ofBits (b 0 + 256 * b 1 + 65536 * b 2 + 16777216 * b 3)

/-- The data store server, as far as the driver uses it: a map from names to
memory blobs and a map from names to `u32` values; a retrieve gives what was
last published under the name. -/
structure DS where
  mem : String → Option (List Nat)
  u32 : String → Option Nat

/-- The call `ds_publish_mem(name, ptr, size, DSF_OVERWRITE)`, `bytes` being the memory at `ptr`. -/
def ds_publish_mem (ds : DS) (name : String) (bytes : List Nat) : DS :=
  { ds with mem := fun k => if k = name then some bytes else ds.mem k }

/-- The call `ds_publish_u32(name, value, DSF_OVERWRITE)`. -/
def ds_publish_u32 (ds : DS) (name : String) (value : Nat) : DS :=
  { ds with u32 := fun k => if k = name then some value else ds.u32 k }

/-- The call `ds_retrieve_mem(name, ...)`: the blob under the name, if there is one. -/
def ds_retrieve_mem (ds : DS) (name : String) : Option (List Nat) := ds.mem name

/-- The call `ds_retrieve_u32(name, ...)`. -/
def ds_retrieve_u32 (ds : DS) (name : String) : Option Nat := ds.u32 name

/-- The call `ds_delete_mem(name)`. -/
def ds_delete_mem (ds : DS) (name : String) : DS :=
  { ds with mem := fun k => if k = name then none else ds.mem k }

/-- The call `ds_delete_u32(name)`. -/
def ds_delete_u32 (ds : DS) (name : String) : DS :=
  { ds with u32 := fun k => if k = name then none else ds.u32 k }

/-- The function `sef_cb_lu_state_save`: the data store afterwards and the status. -/
def sef_cb_lu_state_save (S : Store) (ds : DS) : DS × Int :=
  let ds := ds_publish_mem ds "states" (statesImage S.states)
  let ds := ds_publish_mem ds "accepting_states" (acceptingImage S.accepting_states)
  let ds := ds_publish_u32 ds "current_state" S.current_state.bits
  (ds, OK)

/-- The function `lu_state_restore`. The statuses of the data store calls are not
looked at; a retrieve that finds nothing leaves its destination as it was, so
`current_state_value`, the indeterminate initial content of that local, is
what is then converted. The data store hands back the whole blob published
under the name: the length variables, which the function does not set before
the calls, play no part. -/
def lu_state_restore (S : Store) (ds : DS) (current_state_value : Nat) : Store × DS × Int :=
  let S := match ds_retrieve_mem ds "states" with
    | some blob => { S with states := loadStates blob S.states }
    | none => S
  let ds := ds_delete_mem ds "states"
  let S := match ds_retrieve_mem ds "accepting_states" with
    | some blob => { S with accepting_states := loadAccepting blob S.accepting_states }
    | none => S
  let ds := ds_delete_mem ds "accepting_states"
  let current_state_value := match ds_retrieve_u32 ds "current_state" with
    | some v => v
    | none => current_state_value
  let ds := ds_delete_u32 ds "current_state"
  ({ S with current_state := CInt.ofBits current_state_value }, ds, OK)

/-- The init type `SEF_INIT_FRESH` of `<minix/sef.h>`. -/
def SEF_INIT_FRESH : Int := 0

/-- The init type `SEF_INIT_LU` of `<minix/sef.h>`. -/
def SEF_INIT_LU : Int := 1

/-- The init type `SEF_INIT_RESTART` of `<minix/sef.h>`. -/
def SEF_INIT_RESTART : Int := 2

/-- What `sef_cb_init` leaves behind. -/
structure InitOutcome where
  store : Store
  ds : DS
  announced : Bool
  ret : Int

/-- The function `sef_cb_init`; `S` is the memory it starts from. -/
def sef_cb_init (type : Int) (S : Store) (ds : DS) (current_state_value : Nat) : InitOutcome :=
  let do_announce_driver := true
  let S := { S with states := fun _ _ => toChar 0 }
  let S := { S with accepting_states := fun _ => CInt.lit 0 (by decide) }
  let S := { S with current_state := CInt.lit 0 (by decide) }
  let (S, ds, do_announce_driver) :=
    if type = SEF_INIT_FRESH then (S, ds, do_announce_driver)
    else if type = SEF_INIT_LU then
      let (S, ds, _) := lu_state_restore S ds current_state_value
      (S, ds, false)
    else if type = SEF_INIT_RESTART then (S, ds, do_announce_driver)
    else (S, ds, do_announce_driver)
  { store := S, ds := ds, announced := do_announce_driver, ret := OK }

/-! ## Runs of the driver -/

/-- The store a fresh start leaves: `sef_cb_init(SEF_INIT_FRESH)`. -/
def fresh : Store :=
  { states := fun _ _ => toChar 0
    accepting_states := fun _ => CInt.lit 0 (by decide)
    current_state := CInt.lit 0 (by decide) }

/-- One request to the driver. -/
inductive Request where
  | write (g : Grant) (size : Nat)
  | read (g : Grant) (size : Nat) (junk : Nat → CChar)
  | ioctl (request : Nat) (g : Grant)

/-- The handler the character driver framework calls for a request. -/
def handle (ioc : IocDfa) (S : Store) : Request → Option Outcome
  | .write g size => dfa_write S g size
  | .read g size junk => dfa_read S g size junk
  | .ioctl request g => dfa_ioctl ioc S request g

/-- The store after the requests were served one after the other; `none` as soon
as a handler subscripts outside an array. -/
def run (ioc : IocDfa) (S : Store) (reqs : List Request) : Option Store :=
  reqs.foldlM (fun S req => (handle ioc S req).map Outcome.store) S

/-- A caller buffer holding the bytes `s`, whose copy succeeds. -/
def Grant.ofBytes (s : List CChar) : Grant :=
  { status := OK, mem := fun i => s.getD i (toChar 0) }

/-! ## Sample inputs -/

/-- A store with transitions (0,'a') -> 1 and (1,'b') -> 2, state 2 accepting and
Current State 1. -/
def sample : Store :=
  { states := fun i j =>
      if i.val = 0 ∧ j.val = 97 then toChar 1
      else if i.val = 1 ∧ j.val = 98 then toChar 2
      else toChar 0
    accepting_states := fun i =>
      if i.val = 2 then CInt.lit 1 (by decide) else CInt.lit 0 (by decide)
    current_state := CInt.lit 1 (by decide) }

/-- A grant whose safe copy the kernel refuses with status -1 (`EPERM`). -/
def refused : Grant :=
  { status := -1, mem := fun _ => toChar 0 }

/-! ## The data model of the specification -/

/-- The unsigned value of the byte a `char` holds. -/
def normalize (b : CChar) : Int := b.val % 256

/-- The store is one of the data model: Current State is in [0,255] and every
table cell is a next-state value in [0,255]. -/
def Store.InModel (S : Store) : Prop :=
  (0 ≤ S.current_state.val ∧ S.current_state.val ≤ 255) ∧
    ∀ i j, 0 ≤ (S.states i j).val ∧ (S.states i j).val ≤ 255

/-- The table entry `table[c][x]` for a state `c` and a symbol `x` in [0,255]
(0 elsewhere, where the table has no entry). -/
def Store.table (S : Store) (c x : Int) : Int :=
  match subscript c, subscript x with
  | some i, some j => (S.states i j).val
  | _, _ => 0

/-- The transition `step(c, b) = table[c][normalize(b)]`. -/
def step (S : Store) (c : Int) (b : CChar) : Int := S.table c (normalize b)

/-- State `i` counts as accepting: its cell holds what Mark Accepting stores. -/
def Store.accepting (S : Store) (i : Fin 256) : Bool := (S.accepting_states i).val == 1

/-! ## The scenario of the specification -/

/-- The run of the concrete scenario: from the fresh store, Define Transition
(0,'a',1), Define Transition (1,'b',2), Mark Accepting (2), a write of "ab", a
read of length 3, a write of "a" and a read of length 1. The result lists
Current State after the first write, the bytes of the first read, Current
State after the second write and the bytes of the second read. -/
def scenario : Option (Int × Option (List CChar) × Int × Option (List CChar)) :=
  (do_dfa_add fresh (Grant.ofBytes [toChar 0, toChar 97, toChar 1])).bind fun o1 =>
  (do_dfa_add o1.store (Grant.ofBytes [toChar 1, toChar 98, toChar 2])).bind fun o2 =>
  (do_dfa_accept o2.store (Grant.ofBytes [toChar 2])).bind fun o3 =>
  (dfa_write o3.store (Grant.ofBytes [toChar 97, toChar 98]) 2).bind fun o4 =>
  (dfa_read o4.store (Grant.ofBytes []) 3 (fun _ => toChar 0)).bind fun o5 =>
  (dfa_write o5.store (Grant.ofBytes [toChar 97]) 1).bind fun o6 =>
  (dfa_read o6.store (Grant.ofBytes []) 1 (fun _ => toChar 0)).map fun o7 =>
    (o4.store.current_state.val, o5.delivered, o6.store.current_state.val, o7.delivered)

/-- The run that defines a transition to state 200: from the fresh store, Mark
Accepting (200), Define Transition (0,'b',200) and a write of "b". The result
is the store after the write. -/
def highTarget : Option Store :=
  (do_dfa_accept fresh (Grant.ofBytes [toChar 200])).bind fun o1 =>
  (do_dfa_add o1.store (Grant.ofBytes [toChar 0, toChar 98, toChar 200])).bind fun o2 =>
  (dfa_write o2.store (Grant.ofBytes [toChar 98]) 1).map fun o3 => o3.store

/-- The store Define Transition (0,'c',128) leaves from the fresh one. -/
def afterDefine : Option Store :=
  (do_dfa_add fresh (Grant.ofBytes [toChar 0, toChar 99, toChar 128])).map fun o => o.store

/-! ## Mark commands in a run -/

/-- The case labels of the `switch` in `dfa_ioctl` are pairwise different, as C
requires of the labels of one `switch`. -/
def IocDfa.Distinct (ioc : IocDfa) : Prop :=
  ioc.DFAIOCRESET ≠ ioc.DFAIOCADD ∧ ioc.DFAIOCRESET ≠ ioc.DFAIOCACCEPT ∧
  ioc.DFAIOCRESET ≠ ioc.DFAIOCREJECT ∧ ioc.DFAIOCADD ≠ ioc.DFAIOCACCEPT ∧
  ioc.DFAIOCADD ≠ ioc.DFAIOCREJECT ∧ ioc.DFAIOCACCEPT ≠ ioc.DFAIOCREJECT

/-- The mark a request puts on state `i`: `some true` when it is a Mark Accepting
command for `i`, `some false` when it is a Mark Non-Accepting command for `i`,
`none` when it is no mark command for `i` (a command whose payload the kernel
did not hand over is none). -/
def markOf (ioc : IocDfa) (i : Fin 256) : Request → Option Bool
  | .ioctl request g =>
    if g.status = OK ∧ normalize (g.mem 0) = (i.val : Int) then
      if request = ioc.DFAIOCACCEPT then some true
      else if request = ioc.DFAIOCREJECT then some false
      else none
    else none
  | .write _ _ => none
  | .read _ _ _ => none

/-- The most recent mark on state `i` once the requests were served, `m` being
the most recent one before them. -/
def lastMarkFrom (ioc : IocDfa) (i : Fin 256) (m : Option Bool) (reqs : List Request) :
    Option Bool :=
  reqs.foldl (fun m req =>
    match markOf ioc i req with
    | some b => some b
    | none => m) m

/-- The most recent mark command for state `i` among the requests, if there is one. -/
def lastMark (ioc : IocDfa) (i : Fin 256) (reqs : List Request) : Option Bool :=
  lastMarkFrom ioc i none reqs

/-- The request codes 1, 2, 3, 4 for Reset, Define Transition, Mark Accepting and
Mark Non-Accepting, for the sample run. -/
def sampleCodes : IocDfa :=
  { DFAIOCRESET := 1, DFAIOCADD := 2, DFAIOCACCEPT := 3, DFAIOCREJECT := 4 }

/-- A sample run: Mark Accepting (5), Define Transition (0,'a',5), a write of "a",
Mark Non-Accepting (5), Mark Accepting (200), a read of length 2, Mark
Accepting (5). -/
def sampleRun : List Request :=
  [ .ioctl 3 (Grant.ofBytes [toChar 5]),
    .ioctl 2 (Grant.ofBytes [toChar 0, toChar 97, toChar 5]),
    .write (Grant.ofBytes [toChar 97]) 1,
    .ioctl 4 (Grant.ofBytes [toChar 5]),
    .ioctl 3 (Grant.ofBytes [toChar 200]),
    .read (Grant.ofBytes []) 2 (fun _ => toChar 0),
    .ioctl 3 (Grant.ofBytes [toChar 5]) ]

/-! ## Auxiliary facts -/

theorem in_range_eq_normalize (c : CChar) : in_range c = normalize c := by
  have h := c.property
  unfold in_range normalize MAX_STATES
  split <;> omega

theorem normalize_bounds (c : CChar) : 0 ≤ normalize c ∧ normalize c < 256 := by
  unfold normalize
  omega

theorem subscript_eq_some (i : Int) (h : 0 ≤ i ∧ i < 256) :
    ∃ a : Fin 256, subscript i = some a ∧ (a.val : Int) = i := by
  have h' : 0 ≤ i ∧ i < MAX_STATES := h
  refine ⟨⟨i.toNat, by omega⟩, ?_, ?_⟩
  · simp [subscript, h']
  · simp only []
    omega

theorem subscript_eq_none (i : Int) (h : i < 0 ∨ 256 ≤ i) : subscript i = none := by
  have h' : ¬ (0 ≤ i ∧ i < MAX_STATES) := by unfold MAX_STATES; omega
  simp [subscript, h']

theorem write_step_eq (S : Store) (b : CChar) (a x : Fin 256)
    (ha : subscript S.current_state.val = some a) (hx : subscript (normalize b) = some x) :
    write_step S b = some { S with current_state := (S.states a x).toCInt } := by
  simp [write_step, Store.readStates, in_range_eq_normalize, ha, hx]

theorem step_eq (S : Store) (c : Int) (b : CChar) (a x : Fin 256)
    (ha : subscript c = some a) (hx : subscript (normalize b) = some x) :
    step S c b = (S.states a x).val := by
  simp [step, Store.table, ha, hx]

theorem step_congr (S T : Store) (h : T.states = S.states) : step T = step S := by
  funext c b
  simp [step, Store.table, h]

theorem foldlM_write_step (s : List CChar) :
    ∀ S : Store, S.InModel →
      ∃ S', s.foldlM write_step S = some S' ∧ S'.states = S.states ∧
        S'.accepting_states = S.accepting_states ∧
        S'.current_state.val = s.foldl (step S) S.current_state.val := by
  induction s with
  | nil => intro S _; exact ⟨S, rfl, rfl, rfl, rfl⟩
  | cons b s ih =>
    intro S hS
    obtain ⟨a, ha, -⟩ := subscript_eq_some S.current_state.val ⟨hS.1.1, by have := hS.1.2; omega⟩
    obtain ⟨x, hx, -⟩ := subscript_eq_some (normalize b) (normalize_bounds b)
    have hstep := write_step_eq S b a x ha hx
    have hmodel : Store.InModel { S with current_state := (S.states a x).toCInt } :=
      ⟨hS.2 a x, hS.2⟩
    obtain ⟨S', h1, h2, h3, h4⟩ := ih _ hmodel
    refine ⟨S', ?_, h2, h3, ?_⟩
    · simp [List.foldlM, hstep, h1]
    · rw [h4, List.foldl_cons, step_eq S _ b a x ha hx]
      rw [step_congr _ S rfl]
      rfl

theorem fill_loop_eq (x : CChar) (todo : Nat) :
    ∀ (i : Nat) (buffer : List CChar), buffer.length = i + todo →
      fill_loop x todo i buffer = buffer.take i ++ List.replicate todo x := by
  induction todo with
  | zero =>
    intro i buffer h
    have h' : buffer.length ≤ i := by omega
    simp [fill_loop, List.take_of_length_le h']
  | succ todo ih =>
    intro i buffer h
    rw [fill_loop, ih (i + 1) _ (by rw [List.length_set]; omega)]
    apply List.ext_getElem
    · simp [List.length_take, List.length_set]; omega
    · intro n h1 h2
      simp only [List.getElem_append, List.length_take, List.length_set, List.getElem_take,
        List.getElem_set, List.getElem_replicate]
      split <;> split <;> try split
      all_goals first | rfl | omega

theorem ofByte_byte (c : CChar) : CChar.ofByte c.byte = c := by
  have h := c.property
  apply Subtype.ext
  simp only [CChar.ofByte, CChar.byte, toChar]
  omega

theorem ofBits_bits (v : CInt) : CInt.ofBits v.bits = v := by
  have h := v.property
  apply Subtype.ext
  simp only [CInt.ofBits, CInt.bits]
  omega

theorem bits_lt (v : CInt) : v.bits < 4294967296 := by
  simp only [CInt.bits]
  omega

theorem getElem?_ofFn_lt {α : Type} {n : Nat} (f : Fin n → α) (k : Nat) (h : k < n) :
    (List.ofFn f)[k]? = some (f ⟨k, h⟩) := by
  rw [List.getElem?_ofFn, List.ofFnNthVal, dif_pos h]

theorem statesImage_getElem? (t : Fin 256 → Fin 256 → CChar) (i j : Fin 256) :
    (statesImage t)[i.val * 256 + j.val]? = some (t i j).byte := by
  have hi := i.isLt
  have hj := j.isLt
  have hlt : i.val * 256 + j.val < 65536 := by omega
  have h1 : (i.val * 256 + j.val) / 256 = i.val := by omega
  have h2 : (i.val * 256 + j.val) % 256 = j.val := by omega
  unfold statesImage
  rw [getElem?_ofFn_lt _ _ hlt]
  simp only [h1, h2, Fin.eta]

theorem acceptingImage_getElem? (a : Fin 256 → CInt) (i : Fin 256) (k : Nat) (hk : k < 4) :
    (acceptingImage a)[4 * i.val + k]? = some ((a i).byte k) := by
  have hi := i.isLt
  have hlt : 4 * i.val + k < 1024 := by omega
  have h1 : (4 * i.val + k) / 4 = i.val := by omega
  have h2 : (4 * i.val + k) % 4 = k := by omega
  unfold acceptingImage
  rw [getElem?_ofFn_lt _ _ hlt]
  simp only [h1, h2, Fin.eta]

theorem loadStates_apply (blob : List Nat) (old : Fin 256 → Fin 256 → CChar) (i j : Fin 256) :
    loadStates blob old i j =
      match blob[i.val * 256 + j.val]? with
      | some b => CChar.ofByte b
      | none => old i j := rfl

theorem loadAccepting_apply (blob : List Nat) (old : Fin 256 → CInt) (i : Fin 256) :
    loadAccepting blob old i =
      CInt.ofBits
        ((blob[4 * i.val + 0]?).getD ((old i).byte 0) % 256 +
          256 * ((blob[4 * i.val + 1]?).getD ((old i).byte 1) % 256) +
          65536 * ((blob[4 * i.val + 2]?).getD ((old i).byte 2) % 256) +
          16777216 * ((blob[4 * i.val + 3]?).getD ((old i).byte 3) % 256)) := rfl

theorem loadStates_statesImage (t old : Fin 256 → Fin 256 → CChar) :
    loadStates (statesImage t) old = t := by
  funext i j
  rw [loadStates_apply, statesImage_getElem?]
  exact ofByte_byte _

theorem loadAccepting_acceptingImage (a old : Fin 256 → CInt) :
    loadAccepting (acceptingImage a) old = a := by
  funext i
  have hb := bits_lt (a i)
  rw [loadAccepting_apply, acceptingImage_getElem? a i 0 (by decide),
    acceptingImage_getElem? a i 1 (by decide), acceptingImage_getElem? a i 2 (by decide),
    acceptingImage_getElem? a i 3 (by decide)]
  conv_rhs => rw [← ofBits_bits (a i)]
  congr 1
  simp only [Option.getD_some, CInt.byte]
  norm_num
  omega

theorem safecopyfrom_three (g : Grant) :
    sys_safecopyfrom g 3 = (g.status, [g.mem 0, g.mem 1, g.mem 2]) := rfl

theorem safecopyfrom_one (g : Grant) : sys_safecopyfrom g 1 = (g.status, [g.mem 0]) := rfl

theorem normalize_nonneg (c : CChar) : 0 ≤ normalize c := (normalize_bounds c).1

theorem normalize_not_neg (c : CChar) : ¬ normalize c < 0 := by
  have := normalize_bounds c
  omega

theorem subscript_normalize (c : CChar) : ∃ a : Fin 256, subscript (normalize c) = some a :=
  let ⟨a, h, _⟩ := subscript_eq_some (normalize c) (normalize_bounds c)
  ⟨a, h⟩

theorem do_dfa_add_ok (S : Store) (g : Grant) (a x : Fin 256) (h : g.status = OK)
    (ha : subscript (normalize (g.mem 0)) = some a)
    (hx : subscript (normalize (g.mem 1)) = some x) :
    do_dfa_add S g = some
      { store :=
          { states := fun i j =>
              if i = a ∧ j = x then toChar (normalize (g.mem 2)) else S.states i j
            accepting_states := S.accepting_states
            current_state := CInt.lit 0 (by decide) }
        ret := OK, delivered := none, console := [] } := by
  simp [do_dfa_add, safecopyfrom_three, h, Store.writeStates, in_range_eq_normalize, ha, hx,
    do_dfa_reset, normalize_not_neg, normalize_nonneg]

theorem do_dfa_accept_ok (S : Store) (g : Grant) (a : Fin 256) (h : g.status = OK)
    (ha : subscript (normalize (g.mem 0)) = some a) :
    do_dfa_accept S g = some
      { store :=
          { S with accepting_states := fun i =>
              if i = a then CInt.lit 1 (by decide) else S.accepting_states i }
        ret := OK, delivered := none, console := [] } := by
  simp [do_dfa_accept, safecopyfrom_one, h, Store.writeAccepting, normalize_not_neg,
    normalize_nonneg, in_range_eq_normalize, ha]

theorem do_dfa_reject_ok (S : Store) (g : Grant) (a : Fin 256) (h : g.status = OK)
    (ha : subscript (normalize (g.mem 0)) = some a) :
    do_dfa_reject S g = some
      { store :=
          { S with accepting_states := fun i =>
              if i = a then CInt.lit 0 (by decide) else S.accepting_states i }
        ret := OK, delivered := none, console := [] } := by
  simp [do_dfa_reject, safecopyfrom_one, h, Store.writeAccepting, in_range_eq_normalize, ha]

theorem do_dfa_add_failed (S : Store) (g : Grant) (h : g.status ≠ OK) :
    do_dfa_add S g = some { store := S, ret := g.status, delivered := none, console := [] } := by
  simp [do_dfa_add, safecopyfrom_three, h]

theorem do_dfa_accept_failed (S : Store) (g : Grant) (h : g.status ≠ OK) :
    do_dfa_accept S g = some { store := S, ret := g.status, delivered := none, console := [] } := by
  simp [do_dfa_accept, safecopyfrom_one, h]

theorem do_dfa_reject_failed (S : Store) (g : Grant) (h : g.status ≠ OK) :
    do_dfa_reject S g = some { store := S, ret := g.status, delivered := none, console := [] } := by
  simp [do_dfa_reject, safecopyfrom_one, h]

theorem dfa_write_failed (S : Store) (g : Grant) (size : Nat) (h : g.status ≠ OK) :
    dfa_write S g size = some { store := S, ret := g.status, delivered := none, console := [] } := by
  simp [dfa_write, sys_safecopyfrom, h]

theorem write_step_frame (S S' : Store) (b : CChar) (h : write_step S b = some S') :
    S'.states = S.states ∧ S'.accepting_states = S.accepting_states := by
  simp only [write_step, Store.readStates, bind, Option.bind_eq_some, pure, Option.some.injEq] at h
  obtain ⟨cell, -, rfl⟩ := h
  exact ⟨rfl, rfl⟩

theorem foldlM_write_step_frame (s : List CChar) :
    ∀ S S' : Store, s.foldlM write_step S = some S' →
      S'.states = S.states ∧ S'.accepting_states = S.accepting_states := by
  induction s with
  | nil =>
    intro S S' h
    simp only [List.foldlM, pure, Option.some.injEq] at h
    subst h
    exact ⟨rfl, rfl⟩
  | cons b s ih =>
    intro S S' h
    simp only [List.foldlM, bind, Option.bind_eq_some] at h
    obtain ⟨T, hT, hrest⟩ := h
    obtain ⟨h1, h2⟩ := write_step_frame S T b hT
    obtain ⟨h3, h4⟩ := ih T S' hrest
    exact ⟨h3.trans h1, h4.trans h2⟩

theorem dfa_write_frame_of_some (S : Store) (g : Grant) (size : Nat) (out : Outcome)
    (h : dfa_write S g size = some out) :
    out.store.states = S.states ∧ out.store.accepting_states = S.accepting_states := by
  by_cases hs : g.status = OK
  · simp only [dfa_write, sys_safecopyfrom, hs, ne_eq, not_true_eq_false, if_false, bind,
      Option.bind_eq_some, pure, Option.some.injEq] at h
    obtain ⟨S', hS', rfl⟩ := h
    exact foldlM_write_step_frame _ S S' hS'
  · rw [dfa_write_failed S g size hs] at h
    simp only [Option.some.injEq] at h
    subst h
    exact ⟨rfl, rfl⟩

theorem dfa_write_returns (S : Store) (g : Grant) (size : Nat) (hS : S.InModel) :
    ∃ out, dfa_write S g size = some out := by
  by_cases hs : g.status = OK
  · obtain ⟨S', h1, -⟩ := foldlM_write_step ((List.range size).map g.mem) S hS
    exact ⟨{ store := S', ret := (size : Int), delivered := none, console := [] },
      by simp [dfa_write, sys_safecopyfrom, hs, h1]⟩
  · exact ⟨_, dfa_write_failed S g size hs⟩

theorem dfa_read_eq (S : Store) (g : Grant) (size : Nat) (junk : Nat → CChar) :
    dfa_read S g size junk =
      (S.readAccepting S.current_state.val).map fun acc =>
        if g.status ≠ OK then
          { store := S, ret := g.status, delivered := none, console := [] }
        else
          { store := S, ret := (size : Int),
            delivered := some (List.replicate size (if acc.val = 1 then charY else charN)),
            console := [] } := by
  cases hacc : S.readAccepting S.current_state.val with
  | none => simp [dfa_read, hacc]
  | some acc =>
    have hfill := fill_loop_eq (if acc.val = 1 then charY else charN) size 0
      ((List.range size).map junk) (by simp)
    by_cases hs : g.status = OK
    · simp [dfa_read, hacc, hs, hfill]
    · simp [dfa_read, hacc, hs]

theorem dfa_read_store_of_some (S : Store) (g : Grant) (size : Nat) (junk : Nat → CChar)
    (out : Outcome) (h : dfa_read S g size junk = some out) : out.store = S := by
  rw [dfa_read_eq] at h
  simp only [Option.map_eq_some'] at h
  obtain ⟨acc, -, rfl⟩ := h
  split <;> rfl

theorem write_step_fresh (b : CChar) : write_step fresh b = some fresh := by
  obtain ⟨x, hx⟩ := subscript_normalize b
  have h0 : subscript fresh.current_state.val = some 0 := by decide
  rw [write_step_eq fresh b 0 x h0 hx]
  rfl

theorem foldlM_write_step_fresh (s : List CChar) : s.foldlM write_step fresh = some fresh := by
  induction s with
  | nil => rfl
  | cons b s ih => simp [List.foldlM, write_step_fresh, ih]

theorem foldlM_write_step_model (s : List CChar) :
    ∀ S : Store, S.InModel → ∃ S', s.foldlM write_step S = some S' ∧ S'.InModel := by
  induction s with
  | nil => intro S hS; exact ⟨S, rfl, hS⟩
  | cons b s ih =>
    intro S hS
    obtain ⟨a, ha, -⟩ := subscript_eq_some S.current_state.val ⟨hS.1.1, by have := hS.1.2; omega⟩
    obtain ⟨x, hx, -⟩ := subscript_eq_some (normalize b) (normalize_bounds b)
    have hstep := write_step_eq S b a x ha hx
    have hmodel : Store.InModel { S with current_state := (S.states a x).toCInt } :=
      ⟨hS.2 a x, hS.2⟩
    obtain ⟨S', h1, h2⟩ := ih _ hmodel
    exact ⟨S', by simp [List.foldlM, hstep, h1], h2⟩

theorem safecopyfrom_ofBytes (s : List CChar) :
    sys_safecopyfrom (Grant.ofBytes s) s.length = (OK, s) := by
  simp only [sys_safecopyfrom, Grant.ofBytes, Prod.mk.injEq, true_and]
  apply List.ext_getElem
  · simp
  · intro n h1 h2
    simp [List.getD_eq_getElem?_getD, List.getElem?_eq_getElem h2]

theorem dfa_write_of_copy (S : Store) (g : Grant) (size : Nat) (s : List CChar)
    (h : sys_safecopyfrom g size = (OK, s)) :
    dfa_write S g size = (s.foldlM write_step S).map fun S' =>
      { store := S', ret := (size : Int), delivered := none, console := [] } := by
  cases hf : s.foldlM write_step S <;> simp [dfa_write, h, hf]

theorem handle_accepting (ioc : IocDfa) (hd : ioc.Distinct) (S : Store) (req : Request)
    (out : Outcome) (h : handle ioc S req = some out) (i : Fin 256) :
    out.store.accepting_states i =
      match markOf ioc i req with
      | some true => CInt.lit 1 (by decide)
      | some false => CInt.lit 0 (by decide)
      | none => S.accepting_states i := by
  obtain ⟨d1, d2, d3, d4, d5, d6⟩ := hd
  cases req with
  | write g size =>
    simp only [handle] at h
    simp only [markOf]
    rw [(dfa_write_frame_of_some S g size out h).2]
  | read g size junk =>
    simp only [handle] at h
    simp only [markOf]
    rw [dfa_read_store_of_some S g size junk out h]
  | ioctl request g =>
    simp only [handle, dfa_ioctl] at h
    by_cases hR : request = ioc.DFAIOCRESET
    · subst hR
      simp only [if_true, Option.some.injEq] at h
      subst h
      simp [markOf, d2, d3, do_dfa_reset]
    · simp only [hR, if_false] at h
      by_cases hA : request = ioc.DFAIOCADD
      · subst hA
        simp only [if_true] at h
        have hacc : out.store.accepting_states = S.accepting_states := by
          by_cases hs : g.status = OK
          · obtain ⟨a, ha⟩ := subscript_normalize (g.mem 0)
            obtain ⟨x, hx⟩ := subscript_normalize (g.mem 1)
            rw [do_dfa_add_ok S g a x hs ha hx, Option.some.injEq] at h
            subst h
            rfl
          · rw [do_dfa_add_failed S g hs, Option.some.injEq] at h
            subst h
            rfl
        simp [markOf, d4, d5, hacc]
      · simp only [hA, if_false] at h
        obtain ⟨a, ha, hav⟩ := subscript_eq_some (normalize (g.mem 0)) (normalize_bounds (g.mem 0))
        have hia : i = a ↔ normalize (g.mem 0) = (i.val : Int) := by
          constructor
          · intro hh; rw [hh, hav]
          · intro hh
            apply Fin.ext
            have : (a.val : Int) = (i.val : Int) := hav.trans hh
            exact_mod_cast this.symm
        by_cases hC : request = ioc.DFAIOCACCEPT
        · subst hC
          simp only [if_true] at h
          by_cases hs : g.status = OK
          · rw [do_dfa_accept_ok S g a hs ha, Option.some.injEq] at h
            subst h
            by_cases hi : i = a
            · simp [markOf, hs, hia.mp hi, hi]
            · have hn : ¬ normalize (g.mem 0) = (i.val : Int) := fun hh => hi (hia.mpr hh)
              simp [markOf, hs, hn, hi]
          · rw [do_dfa_accept_failed S g hs, Option.some.injEq] at h
            subst h
            simp [markOf, hs]
        · simp only [hC, if_false] at h
          by_cases hJ : request = ioc.DFAIOCREJECT
          · subst hJ
            simp only [if_true] at h
            by_cases hs : g.status = OK
            · rw [do_dfa_reject_ok S g a hs ha, Option.some.injEq] at h
              subst h
              by_cases hi : i = a
              · simp [markOf, hs, hia.mp hi, hi, hC]
              · have hn : ¬ normalize (g.mem 0) = (i.val : Int) := fun hh => hi (hia.mpr hh)
                simp [markOf, hs, hn, hi]
            · rw [do_dfa_reject_failed S g hs, Option.some.injEq] at h
              subst h
              simp [markOf, hs]
          · simp only [hJ, if_false, Option.some.injEq] at h
            subst h
            simp [markOf, hC, hJ]

theorem run_cons (ioc : IocDfa) (S : Store) (req : Request) (reqs : List Request) :
    run ioc S (req :: reqs) = (handle ioc S req).bind fun out => run ioc out.store reqs := by
  cases h : handle ioc S req <;> simp [run, List.foldlM, h]

theorem run_accepting (ioc : IocDfa) (hd : ioc.Distinct) (i : Fin 256) (reqs : List Request) :
    ∀ (S0 S : Store) (m0 : Option Bool), run ioc S0 reqs = some S →
      ((S0.accepting_states i).val = 0 ∨ (S0.accepting_states i).val = 1) →
      (S0.accepting i = true ↔ m0 = some true) →
      ((S.accepting_states i).val = 0 ∨ (S.accepting_states i).val = 1) ∧
        (S.accepting i = true ↔ lastMarkFrom ioc i m0 reqs = some true) := by
  induction reqs with
  | nil =>
    intro S0 S m0 h h1 h2
    simp only [run, List.foldlM, pure, Option.some.injEq] at h
    subst h
    exact ⟨h1, h2⟩
  | cons req reqs ih =>
    intro S0 S m0 h h1 h2
    rw [run_cons] at h
    simp only [Option.bind_eq_some] at h
    obtain ⟨out, hout, hrest⟩ := h
    have hcell := handle_accepting ioc hd S0 req out hout i
    have hfold : lastMarkFrom ioc i m0 (req :: reqs)
        = lastMarkFrom ioc i (match markOf ioc i req with
            | some b => some b
            | none => m0) reqs := rfl
    rw [hfold]
    apply ih out.store S _ hrest
    · rw [hcell]
      rcases hm : markOf ioc i req with _ | b
      · exact h1
      · cases b
        · left; rfl
        · right; rfl
    · simp only [Store.accepting, hcell]
      rcases hm : markOf ioc i req with _ | b
      · simpa [Store.accepting] using h2
      · cases b <;> simp [CInt.lit]

/-! ## The claims -/

/-- C1 (does not hold on the code): on the store that Define Transition
(0,'c',128) leaves from the fresh one, Current State is 0 and the cell
`states[0]['c']` holds -128. The copy of the two bytes "cc" from the caller
succeeds; a write of "c" returns 1 with Current State -128, and the write of
"cc" subscripts `states[-128]['c']` at its second byte, outside the table, so it
has no defined result instead of returning 2. -/
theorem dfa_write_leaves_the_table :
    sys_safecopyfrom (Grant.ofBytes [toChar 99, toChar 99]) 2
      = (OK, [toChar 99, toChar 99]) ∧
    normalize (toChar 128) = 128 ∧
    (afterDefine.map fun S => (S.current_state.val, (S.states 0 99).val)) = some (0, -128) ∧
    (afterDefine.bind fun S =>
      (dfa_write S (Grant.ofBytes [toChar 99]) 1).map fun o =>
        (o.ret, o.store.current_state.val)) = some (1, -128) ∧
    (afterDefine.bind fun S =>
      (dfa_write S (Grant.ofBytes [toChar 99]) 1).bind fun o =>
        (write_step o.store (toChar 99)).map fun T => T.current_state.val) = none ∧
    (afterDefine.bind fun S =>
      (dfa_write S (Grant.ofBytes [toChar 99, toChar 99]) 2).map fun o => o.ret) = none := by
  decide

/-- The write loop on the stores of the data model only (Current State and every
table cell in [0,255], so no target above 127): when the copy of the `size`
bytes `s` from the caller succeeds, `dfa_write` returns `len(s)` and leaves
Current State equal to the left-to-right fold of `step` over `s` from the
Current State before, `step(c, b)` being `table[c][normalize(b)]`. -/
theorem dfa_write_fold (S : Store) (g : Grant) (size : Nat) (s : List CChar)
    (hS : S.InModel) (hcopy : sys_safecopyfrom g size = (OK, s)) :
    ∃ out, dfa_write S g size = some out ∧ out.ret = (s.length : Int) ∧
      out.store.current_state.val = s.foldl (step S) S.current_state.val := by
  obtain ⟨S', h1, -, -, h4⟩ := foldlM_write_step s S hS
  have hlen : s.length = size := by
    have := congrArg Prod.snd hcopy
    simp only [sys_safecopyfrom] at this
    rw [← this]; simp
  refine ⟨{ store := S', ret := (size : Int), delivered := none, console := [] }, ?_, ?_, h4⟩
  · simp [dfa_write, hcopy, h1]
  · simp [hlen]

/-- Instance of `dfa_write_fold`: the bytes "ba" written to `sample`. -/
theorem dfa_write_fold_witness :
    sample.InModel ∧
    sys_safecopyfrom (Grant.ofBytes [toChar 98, toChar 97]) 2 = (OK, [toChar 98, toChar 97]) ∧
    ∃ out, dfa_write sample (Grant.ofBytes [toChar 98, toChar 97]) 2 = some out ∧
      out.ret = (([toChar 98, toChar 97] : List CChar).length : Int) ∧
      out.store.current_state.val =
        ([toChar 98, toChar 97] : List CChar).foldl (step sample) sample.current_state.val :=
  have hS : sample.InModel :=
    ⟨by decide, fun i j => by unfold sample; simp only []; split_ifs <;> decide⟩
  ⟨hS, by decide, dfa_write_fold sample _ 2 _ hS (by decide)⟩

/-- C2: when Current State is a state (in [0,255]) and the copy to the caller
succeeds, `dfa_read` of length `size` returns `size` and delivers exactly `size`
bytes, each `'Y'` if the accepting cell of Current State is set and `'N'`
otherwise; for `size = 0` that is the empty sequence. -/
theorem dfa_read_bytes (S : Store) (g : Grant) (size : Nat) (junk : Nat → CChar)
    (hcur : 0 ≤ S.current_state.val ∧ S.current_state.val ≤ 255) (hcopy : g.status = OK) :
    ∃ (i : Fin 256) (out : Outcome) (bytes : List CChar),
      subscript S.current_state.val = some i ∧
      dfa_read S g size junk = some out ∧ out.ret = (size : Int) ∧
      out.delivered = some bytes ∧ bytes.length = size ∧
      (∀ b ∈ bytes, b = if S.accepting i then charY else charN) ∧
      bytes = List.replicate size (if S.accepting i then charY else charN) := by
  obtain ⟨i, hi, -⟩ := subscript_eq_some S.current_state.val ⟨hcur.1, by omega⟩
  have hfill := fill_loop_eq (if (S.accepting_states i).val = 1 then charY else charN) size 0
    ((List.range size).map junk) (by simp)
  have hacc : (if S.accepting i then charY else charN)
      = (if (S.accepting_states i).val = 1 then charY else charN) := by
    simp [Store.accepting]
  refine ⟨i, { store := S, ret := (size : Int), delivered := some (List.replicate size
    (if (S.accepting_states i).val = 1 then charY else charN)), console := [] },
    _, hi, ?_, rfl, rfl, ?_, ?_, ?_⟩
  · simp [dfa_read, Store.readAccepting, hi, hcopy, hfill]
  · simp
  · intro b hb
    rw [hacc]
    exact List.eq_of_mem_replicate hb
  · rw [hacc]

/-- Instance of C2: three bytes read from `sample` moved to its accepting state 2. -/
theorem dfa_read_bytes_witness :
    (0 ≤ (2 : Int) ∧ (2 : Int) ≤ 255) ∧ Grant.status (Grant.ofBytes []) = OK ∧
    ∃ (i : Fin 256) (out : Outcome) (bytes : List CChar),
      subscript 2 = some i ∧
      dfa_read { sample with current_state := CInt.lit 2 (by decide) } (Grant.ofBytes []) 3
        (fun _ => toChar 0) = some out ∧ out.ret = 3 ∧
      out.delivered = some bytes ∧ bytes.length = 3 ∧
      (∀ b ∈ bytes, b = if sample.accepting i then charY else charN) ∧
      bytes = List.replicate 3 (if sample.accepting i then charY else charN) :=
  ⟨by decide, rfl,
    dfa_read_bytes { sample with current_state := CInt.lit 2 (by decide) } (Grant.ofBytes []) 3
      (fun _ => toChar 0) (by decide) rfl⟩

/-- C3 (does not hold on the code): from the fresh store, Define Transition
(0, 'a', 200) followed by a write of "a" leaves Current State at -56, outside
[0,255]; the read that follows subscripts `accepting_states[-56]` and a second
written byte subscripts `states[-56]`, both outside the arrays. -/
theorem current_state_leaves_range :
    ((do_dfa_add fresh (Grant.ofBytes [toChar 0, toChar 97, toChar 200])).bind fun o1 =>
      (dfa_write o1.store (Grant.ofBytes [toChar 97]) 1).map fun o2 =>
        o2.store.current_state.val) = some (-56) ∧
    ((do_dfa_add fresh (Grant.ofBytes [toChar 0, toChar 97, toChar 200])).bind fun o1 =>
      (dfa_write o1.store (Grant.ofBytes [toChar 97]) 1).bind fun o2 =>
        (dfa_read o2.store (Grant.ofBytes []) 1 (fun _ => toChar 0)).map fun o3 =>
          o3.ret) = none ∧
    ((do_dfa_add fresh (Grant.ofBytes [toChar 0, toChar 97, toChar 200])).bind fun o1 =>
      (dfa_write o1.store (Grant.ofBytes [toChar 97, toChar 97]) 2).map fun o2 =>
        o2.ret) = none := by
  decide

/-- C4 (does not hold on the code): Define Transition (0, 'a', 200) on the fresh
store; `normalize(next_state)` is 200, the `char` cell `states[0]['a']` holds -56
afterwards. -/
theorem do_dfa_add_cell_is_signed :
    normalize (toChar 200) = 200 ∧
    ((do_dfa_add fresh (Grant.ofBytes [toChar 0, toChar 97, toChar 200])).map fun out =>
      (out.store.states 0 97).val) = some (-56) := by
  decide

/-- C5: for every store, whatever its Current State, and every triple whose copy
succeeds, `do_dfa_add` returns `OK` and leaves Current State 0. -/
theorem do_dfa_add_resets (S : Store) (g : Grant) (hcopy : g.status = OK) :
    ∃ out, do_dfa_add S g = some out ∧ out.store.current_state.val = 0 ∧ out.ret = OK := by
  obtain ⟨a, ha⟩ := subscript_normalize (g.mem 0)
  obtain ⟨x, hx⟩ := subscript_normalize (g.mem 1)
  exact ⟨_, do_dfa_add_ok S g a x hcopy ha hx, rfl, rfl⟩

/-- Instance of C5: `sample`, whose Current State is 1, and the triple (5, 6, 7). -/
theorem do_dfa_add_resets_witness :
    sample.current_state.val = 1 ∧
    Grant.status (Grant.ofBytes [toChar 5, toChar 6, toChar 7]) = OK ∧
    ∃ out, do_dfa_add sample (Grant.ofBytes [toChar 5, toChar 6, toChar 7]) = some out ∧
      out.store.current_state.val = 0 ∧ out.ret = OK :=
  ⟨rfl, rfl, do_dfa_add_resets sample (Grant.ofBytes [toChar 5, toChar 6, toChar 7]) rfl⟩

/-- C6: snapshot round trip. For every store `S`, `sef_cb_lu_state_save` on `S`
followed by `sef_cb_init(SEF_INIT_LU)` against the resulting data store, started
from any memory `M`, gives a store equal to `S` (table, accepting cells and
Current State, which passes through `u32`); so every later `dfa_write` and
`dfa_read` behaves as on `S`. -/
theorem snapshot_round_trip (S M : Store) (ds : DS) (current_state_value : Nat) :
    (sef_cb_init SEF_INIT_LU M (sef_cb_lu_state_save S ds).1 current_state_value).store = S ∧
    (∀ g size,
      dfa_write (sef_cb_init SEF_INIT_LU M (sef_cb_lu_state_save S ds).1
        current_state_value).store g size = dfa_write S g size) ∧
    (∀ g size junk,
      dfa_read (sef_cb_init SEF_INIT_LU M (sef_cb_lu_state_save S ds).1
        current_state_value).store g size junk = dfa_read S g size junk) := by
  have key : (sef_cb_init SEF_INIT_LU M (sef_cb_lu_state_save S ds).1
      current_state_value).store = S := by
    have e1 : SEF_INIT_LU ≠ SEF_INIT_FRESH := by decide
    simp only [sef_cb_init, sef_cb_lu_state_save, lu_state_restore, ds_publish_mem,
      ds_publish_u32, ds_retrieve_mem, ds_retrieve_u32, ds_delete_mem, e1, if_false, if_true]
    have n1 : ¬ ("states" = "accepting_states") := by decide
    have n2 : ¬ ("accepting_states" = "states") := by decide
    simp only [n1, n2, if_false, if_true, loadStates_statesImage, loadAccepting_acceptingImage,
      ofBits_bits]
  exact ⟨key, fun g size => by rw [key], fun g size junk => by rw [key]⟩

/-- C7: for every store and every byte `state` whose copy succeeds, with `i` its
unsigned value, `do_dfa_accept` makes state `i` accepting, `do_dfa_reject` makes
it non-accepting, both leave every other accepting cell as it was, and both
return `OK`. -/
theorem mark_accepting_and_non_accepting (S : Store) (g : Grant) (hcopy : g.status = OK) :
    ∃ (i : Fin 256) (outA outR : Outcome),
      (i.val : Int) = normalize (g.mem 0) ∧
      do_dfa_accept S g = some outA ∧ do_dfa_reject S g = some outR ∧
      outA.store.accepting i = true ∧ outR.store.accepting i = false ∧
      (∀ j, j ≠ i →
        outA.store.accepting_states j = S.accepting_states j ∧
        outR.store.accepting_states j = S.accepting_states j) ∧
      outA.ret = OK ∧ outR.ret = OK := by
  obtain ⟨i, hi, hval⟩ := subscript_eq_some (normalize (g.mem 0)) (normalize_bounds (g.mem 0))
  refine ⟨i, _, _, hval, do_dfa_accept_ok S g i hcopy hi, do_dfa_reject_ok S g i hcopy hi,
    ?_, ?_, ?_, rfl, rfl⟩
  · simp [Store.accepting, CInt.lit]
  · simp [Store.accepting, CInt.lit]
  · intro j hj
    simp [hj]

/-- Instance of C7: the byte 200 (the `char` -56) marks and unmarks state 200 of `sample`. -/
theorem mark_accepting_and_non_accepting_witness :
    Grant.status (Grant.ofBytes [toChar 200]) = OK ∧
    ∃ (i : Fin 256) (outA outR : Outcome),
      (i.val : Int) = normalize (Grant.mem (Grant.ofBytes [toChar 200]) 0) ∧
      do_dfa_accept sample (Grant.ofBytes [toChar 200]) = some outA ∧
      do_dfa_reject sample (Grant.ofBytes [toChar 200]) = some outR ∧
      outA.store.accepting i = true ∧ outR.store.accepting i = false ∧
      (∀ j, j ≠ i →
        outA.store.accepting_states j = sample.accepting_states j ∧
        outR.store.accepting_states j = sample.accepting_states j) ∧
      outA.ret = OK ∧ outR.ret = OK :=
  ⟨rfl, mark_accepting_and_non_accepting sample (Grant.ofBytes [toChar 200]) rfl⟩

/-- C8: for every store and payload, whether its copy succeeds or not,
`do_dfa_accept` and `do_dfa_reject` leave every table entry and Current State
unchanged, and `do_dfa_add` leaves every accepting cell unchanged. -/
theorem table_and_accepting_independent (S : Store) (g : Grant) :
    ∃ outA outR outD : Outcome,
      do_dfa_accept S g = some outA ∧ do_dfa_reject S g = some outR ∧
      do_dfa_add S g = some outD ∧
      outA.store.states = S.states ∧ outA.store.current_state = S.current_state ∧
      outR.store.states = S.states ∧ outR.store.current_state = S.current_state ∧
      outD.store.accepting_states = S.accepting_states := by
  by_cases h : g.status = OK
  · obtain ⟨a, ha⟩ := subscript_normalize (g.mem 0)
    obtain ⟨x, hx⟩ := subscript_normalize (g.mem 1)
    exact ⟨_, _, _, do_dfa_accept_ok S g a h ha, do_dfa_reject_ok S g a h ha,
      do_dfa_add_ok S g a x h ha hx, rfl, rfl, rfl, rfl, rfl⟩
  · exact ⟨_, _, _, do_dfa_accept_failed S g h, do_dfa_reject_failed S g h,
      do_dfa_add_failed S g h, rfl, rfl, rfl, rfl, rfl⟩

/-- C9: for every store and every request code that is none of `DFAIOCRESET`,
`DFAIOCADD`, `DFAIOCACCEPT`, `DFAIOCREJECT`, `dfa_ioctl` returns `ENOTTY` and
leaves the store (table, accepting set, Current State) as it was. -/
theorem dfa_ioctl_unsupported (ioc : IocDfa) (S : Store) (request : Nat) (g : Grant)
    (h : request ≠ ioc.DFAIOCRESET ∧ request ≠ ioc.DFAIOCADD ∧
      request ≠ ioc.DFAIOCACCEPT ∧ request ≠ ioc.DFAIOCREJECT) :
    ∃ out, dfa_ioctl ioc S request g = some out ∧ out.ret = ENOTTY ∧ out.store = S := by
  obtain ⟨h1, h2, h3, h4⟩ := h
  exact ⟨{ store := S, ret := ENOTTY, delivered := none, console := [] },
    by simp [dfa_ioctl, h1, h2, h3, h4], rfl, rfl⟩

/-- Instance of C9: request code 7 when the four codes are 1, 2, 3 and 4. -/
theorem dfa_ioctl_unsupported_witness :
    ((7 : Nat) ≠ 1 ∧ (7 : Nat) ≠ 2 ∧ (7 : Nat) ≠ 3 ∧ (7 : Nat) ≠ 4) ∧
    ∃ out, dfa_ioctl ⟨1, 2, 3, 4⟩ sample 7 (Grant.ofBytes [toChar 0, toChar 97, toChar 1])
      = some out ∧ out.ret = ENOTTY ∧ out.store = sample :=
  ⟨by decide,
    dfa_ioctl_unsupported ⟨1, 2, 3, 4⟩ sample 7 (Grant.ofBytes [toChar 0, toChar 97, toChar 1])
      (by decide)⟩

/-- C10: for every store, if the payload copy answers a status `r` other than
`OK`, then `do_dfa_add`, `do_dfa_accept`, `do_dfa_reject` and `dfa_write` each
return exactly `r` and leave the whole store unchanged; a failed `do_dfa_add`
neither writes the entry nor resets Current State. -/
theorem copy_failure_leaves_store (S : Store) (g : Grant) (size : Nat) (h : g.status ≠ OK) :
    (∃ out, do_dfa_add S g = some out ∧ out.ret = g.status ∧ out.store = S) ∧
    (∃ out, do_dfa_accept S g = some out ∧ out.ret = g.status ∧ out.store = S) ∧
    (∃ out, do_dfa_reject S g = some out ∧ out.ret = g.status ∧ out.store = S) ∧
    (∃ out, dfa_write S g size = some out ∧ out.ret = g.status ∧ out.store = S) :=
  ⟨⟨_, do_dfa_add_failed S g h, rfl, rfl⟩, ⟨_, do_dfa_accept_failed S g h, rfl, rfl⟩,
    ⟨_, do_dfa_reject_failed S g h, rfl, rfl⟩, ⟨_, dfa_write_failed S g size h, rfl, rfl⟩⟩

/-- Instance of C10: the kernel refuses the copy with -1 on `sample`. -/
theorem copy_failure_leaves_store_witness :
    refused.status ≠ OK ∧
    (∃ out, do_dfa_add sample refused = some out ∧ out.ret = -1 ∧ out.store = sample) ∧
    (∃ out, do_dfa_accept sample refused = some out ∧ out.ret = -1 ∧ out.store = sample) ∧
    (∃ out, do_dfa_reject sample refused = some out ∧ out.ret = -1 ∧ out.store = sample) ∧
    (∃ out, dfa_write sample refused 2 = some out ∧ out.ret = -1 ∧ out.store = sample) :=
  ⟨by decide, copy_failure_leaves_store sample refused 2 (by decide)⟩

/-- C11: normalization symmetry. For every `char` b the index
`b < 0 ? MAX_STATES + b : b` is b's unsigned value `b mod 256` and lies in
[0,255]; the char -1 and the byte 255 are the same and give index 255. The
loop of `dfa_write` subscripts the table with it, `do_dfa_add` writes at the
indices of its first two bytes, `do_dfa_accept` and `do_dfa_reject` at the index
of their byte, and the diagnostics under `state < 0 || alph < 0` and
`state_index < 0` are never printed. -/
theorem normalization_symmetry :
    (∀ b : CChar, in_range b = b.val % 256 ∧ 0 ≤ in_range b ∧ in_range b ≤ 255) ∧
    (toChar 255 = toChar (-1) ∧ in_range (toChar (-1)) = 255 ∧ in_range (toChar 255) = 255) ∧
    (∀ (S : Store) (b : CChar),
      write_step S b = (S.readStates S.current_state.val (b.val % 256)).map fun cell =>
        { S with current_state := cell.toCInt }) ∧
    (∀ (S : Store) (t0 t1 t2 : CChar), ∃ (i j : Fin 256) (out : Outcome),
      (i.val : Int) = t0.val % 256 ∧ (j.val : Int) = t1.val % 256 ∧
      do_dfa_add S (Grant.ofBytes [t0, t1, t2]) = some out ∧
      out.store.states = fun x y =>
        if x = i ∧ y = j then toChar (t2.val % 256) else S.states x y) ∧
    (∀ (S : Store) (t0 : CChar), ∃ (i : Fin 256) (outA outR : Outcome),
      (i.val : Int) = t0.val % 256 ∧
      do_dfa_accept S (Grant.ofBytes [t0]) = some outA ∧
      do_dfa_reject S (Grant.ofBytes [t0]) = some outR ∧
      (outA.store.accepting_states = fun x =>
        if x = i then CInt.lit 1 (by decide) else S.accepting_states x) ∧
      (outR.store.accepting_states = fun x =>
        if x = i then CInt.lit 0 (by decide) else S.accepting_states x)) ∧
    (∀ (S : Store) (g : Grant), ∃ outD outA outR : Outcome,
      do_dfa_add S g = some outD ∧ do_dfa_accept S g = some outA ∧
      do_dfa_reject S g = some outR ∧
      outD.console = [] ∧ outA.console = [] ∧ outR.console = []) := by
  refine ⟨?_, by decide, ?_, ?_, ?_, ?_⟩
  · intro b
    have h := normalize_bounds b
    rw [in_range_eq_normalize]
    exact ⟨rfl, h.1, by omega⟩
  · intro S b
    cases h : S.readStates S.current_state.val (b.val % 256) <;>
      simp [write_step, in_range_eq_normalize, normalize, h]
  · intro S t0 t1 t2
    obtain ⟨i, hi, hiv⟩ := subscript_eq_some (normalize t0) (normalize_bounds t0)
    obtain ⟨j, hj, hjv⟩ := subscript_eq_some (normalize t1) (normalize_bounds t1)
    exact ⟨i, j, _, hiv, hjv,
      do_dfa_add_ok S (Grant.ofBytes [t0, t1, t2]) i j rfl hi hj, rfl⟩
  · intro S t0
    obtain ⟨i, hi, hiv⟩ := subscript_eq_some (normalize t0) (normalize_bounds t0)
    exact ⟨i, _, _, hiv, do_dfa_accept_ok S (Grant.ofBytes [t0]) i rfl hi,
      do_dfa_reject_ok S (Grant.ofBytes [t0]) i rfl hi, rfl, rfl⟩
  · intro S g
    by_cases h : g.status = OK
    · obtain ⟨a, ha⟩ := subscript_normalize (g.mem 0)
      obtain ⟨x, hx⟩ := subscript_normalize (g.mem 1)
      exact ⟨_, _, _, do_dfa_add_ok S g a x h ha hx, do_dfa_accept_ok S g a h ha,
        do_dfa_reject_ok S g a h ha, rfl, rfl, rfl⟩
    · exact ⟨_, _, _, do_dfa_add_failed S g h, do_dfa_accept_failed S g h,
        do_dfa_reject_failed S g h, rfl, rfl, rfl⟩

/-- C12: for every store, `dfa_ioctl` with `DFAIOCRESET` is `do_dfa_reset`, which
returns `OK`, sets Current State to 0 whatever it was, leaves the table and the
accepting set unchanged, and is idempotent: a second Reset leaves the store
of the first. -/
theorem reset_idempotent (ioc : IocDfa) (S : Store) (g : Grant) :
    dfa_ioctl ioc S ioc.DFAIOCRESET g = some (do_dfa_reset S) ∧
    (do_dfa_reset S).ret = OK ∧
    (do_dfa_reset S).store.current_state.val = 0 ∧
    (do_dfa_reset S).store.states = S.states ∧
    (do_dfa_reset S).store.accepting_states = S.accepting_states ∧
    (do_dfa_reset (do_dfa_reset S).store).store = (do_dfa_reset S).store ∧
    (do_dfa_reset (do_dfa_reset S).store).ret = OK := by
  refine ⟨by simp [dfa_ioctl], rfl, rfl, rfl, rfl, rfl, rfl⟩

/-- C13: for every store and every written byte sequence, whenever `dfa_write`
returns, every table entry and every accepting cell is as before the call; on a
store of the data model it does return. -/
theorem dfa_write_changes_current_state_only (S : Store) (g : Grant) (size : Nat) :
    (∀ out, dfa_write S g size = some out →
      out.store.states = S.states ∧ out.store.accepting_states = S.accepting_states) ∧
    (S.InModel → ∃ out, dfa_write S g size = some out ∧
      out.store.states = S.states ∧ out.store.accepting_states = S.accepting_states) := by
  refine ⟨fun out h => dfa_write_frame_of_some S g size out h, fun hS => ?_⟩
  obtain ⟨out, h⟩ := dfa_write_returns S g size hS
  exact ⟨out, h, dfa_write_frame_of_some S g size out h⟩

/-- Instance of C13: the bytes "ba" written to `sample`. -/
theorem dfa_write_changes_current_state_only_witness :
    sample.InModel ∧
    ∃ out, dfa_write sample (Grant.ofBytes [toChar 98, toChar 97]) 2 = some out ∧
      out.store.states = sample.states ∧
      out.store.accepting_states = sample.accepting_states :=
  have hS : sample.InModel :=
    ⟨by decide, fun i j => by unfold sample; simp only []; split_ifs <;> decide⟩
  ⟨hS, (dfa_write_changes_current_state_only sample
    (Grant.ofBytes [toChar 98, toChar 97]) 2).2 hS⟩

/-- C14: `dfa_read` is read-only. Whenever it returns, with the copy to the
caller succeeding or not, the store is the one before the call; when Current
State is a state it does return, and a second read of the same length, both
copies succeeding, delivers the same bytes. -/
theorem dfa_read_is_read_only (S : Store) (g : Grant) (size : Nat) (junk : Nat → CChar) :
    (∀ out, dfa_read S g size junk = some out → out.store = S) ∧
    ((0 ≤ S.current_state.val ∧ S.current_state.val ≤ 255) →
      ∃ out1, dfa_read S g size junk = some out1 ∧ out1.store = S ∧
        ∀ (g2 : Grant) (junk2 : Nat → CChar),
          ∃ out2, dfa_read out1.store g2 size junk2 = some out2 ∧ out2.store = S ∧
            (g.status = OK → g2.status = OK →
              out1.delivered.isSome = true ∧ out2.delivered = out1.delivered)) := by
  refine ⟨fun out h => dfa_read_store_of_some S g size junk out h, fun hcur => ?_⟩
  obtain ⟨i, hi, -⟩ := subscript_eq_some S.current_state.val ⟨hcur.1, by omega⟩
  have hacc : S.readAccepting S.current_state.val = some (S.accepting_states i) := by
    simp [Store.readAccepting, hi]
  have h1 := dfa_read_eq S g size junk
  rw [hacc, Option.map_some'] at h1
  refine ⟨_, h1, by split <;> rfl, fun g2 junk2 => ?_⟩
  have hstore : (if g.status ≠ OK then
        ({ store := S, ret := g.status, delivered := none, console := [] } : Outcome)
      else
        { store := S, ret := (size : Int),
          delivered := some (List.replicate size
            (if (S.accepting_states i).val = 1 then charY else charN)),
          console := [] }).store = S := by split <;> rfl
  rw [hstore]
  have h2 := dfa_read_eq S g2 size junk2
  rw [hacc, Option.map_some'] at h2
  refine ⟨_, h2, by split <;> rfl, fun hg hg2 => ?_⟩
  simp [hg, hg2]

/-- Instance of C14: two reads of length 3 from `sample`, into different buffers. -/
theorem dfa_read_is_read_only_witness :
    (0 ≤ sample.current_state.val ∧ sample.current_state.val ≤ 255) ∧
    ∃ out1, dfa_read sample (Grant.ofBytes []) 3 (fun _ => toChar 0) = some out1 ∧
      out1.store = sample ∧
      ∀ (g2 : Grant) (junk2 : Nat → CChar),
        ∃ out2, dfa_read out1.store g2 3 junk2 = some out2 ∧ out2.store = sample ∧
          (Grant.status (Grant.ofBytes []) = OK → g2.status = OK →
            out1.delivered.isSome = true ∧ out2.delivered = out1.delivered) :=
  ⟨by decide,
    (dfa_read_is_read_only sample (Grant.ofBytes []) 3 (fun _ => toChar 0)).2 (by decide)⟩

/-- C15: the concrete scenario. From the fresh store, after Define Transition
(0,'a',1), Define Transition (1,'b',2), Mark Accepting (2) and a write of "ab",
Current State is 2 and a read of length 3 delivers "YYY"; a following write of
"a" takes Current State to 0 and a read of length 1 delivers "N". -/
theorem scenario_runs :
    scenario = some (2, some [charY, charY, charY], 0, some [charN]) := by
  decide

/-- C16: `sef_cb_init` with `SEF_INIT_FRESH` or `SEF_INIT_RESTART`, from any memory
`M`, returns `OK` and leaves the store `fresh`: every table entry 0, every state
non-accepting, Current State 0. On that store every write returns with the
store still `fresh` (Current State 0) and every read of length `size` whose copy
succeeds delivers `size` bytes `'N'`. -/
theorem fresh_start (M : Store) (ds : DS) (current_state_value : Nat) :
    (sef_cb_init SEF_INIT_FRESH M ds current_state_value).store = fresh ∧
    (sef_cb_init SEF_INIT_RESTART M ds current_state_value).store = fresh ∧
    (sef_cb_init SEF_INIT_FRESH M ds current_state_value).ret = OK ∧
    (sef_cb_init SEF_INIT_RESTART M ds current_state_value).ret = OK ∧
    (∀ i j, (fresh.states i j).val = 0) ∧
    (∀ i, (fresh.accepting_states i).val = 0 ∧ fresh.accepting i = false) ∧
    fresh.current_state.val = 0 ∧
    (∀ (g : Grant) (size : Nat), ∃ out, dfa_write fresh g size = some out ∧
      out.store = fresh ∧ out.store.current_state.val = 0 ∧
      out.ret = if g.status = OK then (size : Int) else g.status) ∧
    (∀ (g : Grant) (size : Nat) (junk : Nat → CChar), ∃ out,
      dfa_read fresh g size junk = some out ∧ out.store = fresh ∧
      out.ret = (if g.status = OK then (size : Int) else g.status) ∧
      out.delivered = if g.status = OK then some (List.replicate size charN) else none) := by
  refine ⟨rfl, rfl, rfl, rfl, fun _ _ => rfl, fun _ => ⟨rfl, rfl⟩, rfl, ?_, ?_⟩
  · intro g size
    by_cases hs : g.status = OK
    · refine ⟨{ store := fresh, ret := (size : Int), delivered := none, console := [] },
        ?_, rfl, rfl, by simp [hs]⟩
      rw [dfa_write_of_copy fresh g size ((List.range size).map g.mem)
        (by simp [sys_safecopyfrom, hs]),
        foldlM_write_step_fresh]
      rfl
    · exact ⟨_, dfa_write_failed fresh g size hs, rfl, rfl, by simp [hs]⟩
  · intro g size junk
    have hacc : fresh.readAccepting fresh.current_state.val
        = some (CInt.lit 0 (by decide)) := by decide
    have h := dfa_read_eq fresh g size junk
    rw [hacc, Option.map_some'] at h
    refine ⟨_, h, ?_, ?_, ?_⟩ <;> by_cases hs : g.status = OK <;> simp [hs, CInt.lit]

/-- C17: determinism. Two runs from equal stores in which `dfa_write` is handed
the same status and bytes and `dfa_read` of the same length `n` the same copy
status give the same outcomes, store and delivered bytes included, whatever
else lies behind the grants and in the read buffer; on a store of the data
model both calls return. -/
theorem write_then_read_deterministic (S S' : Store) (g1 g1' g2 g2' : Grant) (size n : Nat)
    (junk junk' : Nat → CChar)
    (hS : S = S') (hbytes : sys_safecopyfrom g1 size = sys_safecopyfrom g1' size)
    (hstatus : g2.status = g2'.status) :
    dfa_write S g1 size = dfa_write S' g1' size ∧
    ((dfa_write S g1 size).bind fun o => dfa_read o.store g2 n junk) =
      ((dfa_write S' g1' size).bind fun o => dfa_read o.store g2' n junk') ∧
    (S.InModel → ∃ o1 o2, dfa_write S g1 size = some o1 ∧
      dfa_read o1.store g2 n junk = some o2 ∧ dfa_write S' g1' size = some o1 ∧
      dfa_read o1.store g2' n junk' = some o2) := by
  subst hS
  have hw : dfa_write S g1 size = dfa_write S g1' size := by
    simp only [dfa_write, hbytes]
  have hr : ∀ T : Store, dfa_read T g2 n junk = dfa_read T g2' n junk' := by
    intro T
    rw [dfa_read_eq, dfa_read_eq, hstatus]
  refine ⟨hw, ?_, fun hModel => ?_⟩
  · rw [hw]
    congr 1
    funext o
    exact hr o.store
  · by_cases hs : g1.status = OK
    · obtain ⟨T, hT, hTm⟩ := foldlM_write_step_model ((List.range size).map g1.mem) S hModel
      have h1 : dfa_write S g1 size
          = some { store := T, ret := (size : Int), delivered := none, console := [] } := by
        rw [dfa_write_of_copy S g1 size ((List.range size).map g1.mem)
          (by simp [sys_safecopyfrom, hs]), hT]
        rfl
      obtain ⟨i, hi, -⟩ := subscript_eq_some T.current_state.val
        ⟨hTm.1.1, by have := hTm.1.2; omega⟩
      have hacc : T.readAccepting T.current_state.val = some (T.accepting_states i) := by
        simp [Store.readAccepting, hi]
      have h3 := dfa_read_eq T g2 n junk
      rw [hacc, Option.map_some'] at h3
      exact ⟨_, _, h1, h3, hw ▸ h1, hr T ▸ h3⟩
    · have h1 := dfa_write_failed S g1 size hs
      obtain ⟨i, hi, -⟩ := subscript_eq_some S.current_state.val
        ⟨hModel.1.1, by have := hModel.1.2; omega⟩
      have hacc : S.readAccepting S.current_state.val = some (S.accepting_states i) := by
        simp [Store.readAccepting, hi]
      have h3 := dfa_read_eq S g2 n junk
      rw [hacc, Option.map_some'] at h3
      exact ⟨_, _, h1, h3, hw ▸ h1, hr S ▸ h3⟩

/-- Instance of C17: two runs on `sample` writing "ba", with different memory
behind the write grant past the two bytes, different read grants and different
buffer contents. -/
theorem write_then_read_deterministic_witness :
    sample = sample ∧
    sys_safecopyfrom (Grant.ofBytes [toChar 98, toChar 97]) 2
      = sys_safecopyfrom (Grant.ofBytes [toChar 98, toChar 97, toChar 5]) 2 ∧
    Grant.status (Grant.ofBytes []) = Grant.status (Grant.ofBytes [toChar 1]) ∧
    dfa_write sample (Grant.ofBytes [toChar 98, toChar 97]) 2
      = dfa_write sample (Grant.ofBytes [toChar 98, toChar 97, toChar 5]) 2 ∧
    ((dfa_write sample (Grant.ofBytes [toChar 98, toChar 97]) 2).bind fun o =>
        dfa_read o.store (Grant.ofBytes []) 3 (fun _ => toChar 0)) =
      ((dfa_write sample (Grant.ofBytes [toChar 98, toChar 97, toChar 5]) 2).bind fun o =>
        dfa_read o.store (Grant.ofBytes [toChar 1]) 3 (fun _ => toChar 7)) :=
  have h := write_then_read_deterministic sample sample (Grant.ofBytes [toChar 98, toChar 97])
    (Grant.ofBytes [toChar 98, toChar 97, toChar 5]) (Grant.ofBytes [])
    (Grant.ofBytes [toChar 1]) 2 3 (fun _ => toChar 0) (fun _ => toChar 7) rfl (by decide) rfl
  ⟨rfl, by decide, rfl, h.1, h.2.1⟩

/-- C18 (does not hold on the code): from the fresh store, Mark Accepting (200),
Define Transition (0,'b',200) and a write of "b". The next-state byte has
unsigned value 200 and state 200 is marked accepting, but Current State after
the write is -56, and the read of length 1 that follows subscripts
`accepting_states[-56]` instead of delivering `'Y'`. -/
theorem high_target_not_followed :
    normalize (toChar 200) = 200 ∧
    ((do_dfa_accept fresh (Grant.ofBytes [toChar 200])).map fun o =>
      o.store.accepting 200) = some true ∧
    (highTarget.map fun S => S.current_state.val) = some (-56) ∧
    (highTarget.map fun S => S.accepting 200) = some true ∧
    (highTarget.bind fun S =>
      (dfa_read S (Grant.ofBytes []) 1 (fun _ => toChar 0)).map fun o => o.delivered) = none := by
  decide

/-- C19: writes compose. When the copies succeed, a single `dfa_write` of
`s1 ++ s2` leaves the store that `dfa_write` of `s1` followed by `dfa_write` of
`s2` leaves (both stop at the same out-of-range subscript if there is one, and
on a store of the data model both return); a `dfa_write` of no bytes returns 0
and leaves the store unchanged. -/
theorem dfa_write_composes (S : Store) (g g1 g2 : Grant) (n n1 n2 : Nat) (s1 s2 : List CChar)
    (h : sys_safecopyfrom g n = (OK, s1 ++ s2))
    (h1 : sys_safecopyfrom g1 n1 = (OK, s1)) (h2 : sys_safecopyfrom g2 n2 = (OK, s2)) :
    ((dfa_write S g n).map Outcome.store =
      (dfa_write S g1 n1).bind fun o => (dfa_write o.store g2 n2).map Outcome.store) ∧
    (S.InModel → ∃ T, (dfa_write S g n).map Outcome.store = some T) ∧
    (∀ g0 : Grant, g0.status = OK →
      dfa_write S g0 0 = some { store := S, ret := 0, delivered := none, console := [] }) := by
  refine ⟨?_, fun hS => ?_, fun g0 h0 => ?_⟩
  · rw [dfa_write_of_copy S g n _ h, dfa_write_of_copy S g1 n1 _ h1, List.foldlM_append]
    cases hf : s1.foldlM write_step S with
    | none => rfl
    | some T =>
      rw [Option.map_some', Option.some_bind, dfa_write_of_copy T g2 n2 _ h2]
      simp only [Option.bind_eq_bind, Option.some_bind, Option.map_map]
      rfl
  · obtain ⟨out, hout⟩ := dfa_write_returns S g n hS
    exact ⟨out.store, by rw [hout]; rfl⟩
  · rw [dfa_write_of_copy S g0 0 [] (by simp [sys_safecopyfrom, h0])]
    rfl

/-- Instance of C19: "b" then "aab" written to `sample`, against "baab" at once;
Current State ends at 2. -/
theorem dfa_write_composes_witness :
    sys_safecopyfrom (Grant.ofBytes [toChar 98, toChar 97, toChar 97, toChar 98]) 4
      = (OK, [toChar 98] ++ [toChar 97, toChar 97, toChar 98]) ∧
    sys_safecopyfrom (Grant.ofBytes [toChar 98]) 1 = (OK, [toChar 98]) ∧
    sys_safecopyfrom (Grant.ofBytes [toChar 97, toChar 97, toChar 98]) 3
      = (OK, [toChar 97, toChar 97, toChar 98]) ∧
    ((dfa_write sample (Grant.ofBytes [toChar 98, toChar 97, toChar 97, toChar 98]) 4).map
        Outcome.store =
      (dfa_write sample (Grant.ofBytes [toChar 98]) 1).bind fun o =>
        (dfa_write o.store (Grant.ofBytes [toChar 97, toChar 97, toChar 98]) 3).map
          Outcome.store) ∧
    ((dfa_write sample (Grant.ofBytes [toChar 98, toChar 97, toChar 97, toChar 98]) 4).map
      fun o => o.store.current_state.val) = some 2 :=
  ⟨by decide, by decide, by decide,
    (dfa_write_composes sample (Grant.ofBytes [toChar 98, toChar 97, toChar 97, toChar 98])
      (Grant.ofBytes [toChar 98]) (Grant.ofBytes [toChar 97, toChar 97, toChar 98]) 4 1 3
      [toChar 98] [toChar 97, toChar 97, toChar 98] (by decide) (by decide) (by decide)).1,
    by decide⟩

/-- C20: in every state reached from the fresh store by serving any sequence of
write, read and control requests, every cell of `accepting_states` is 0 or 1, so
the test `== 1` of `dfa_read` holds exactly when the cell is non-zero, and a state
reads as accepting exactly when the most recent mark command for it was Mark
Accepting. -/
theorem accepting_cells_are_boolean (ioc : IocDfa) (hd : ioc.Distinct) (reqs : List Request)
    (S : Store) (hrun : run ioc fresh reqs = some S) (i : Fin 256) :
    ((S.accepting_states i).val = 0 ∨ (S.accepting_states i).val = 1) ∧
    ((S.accepting_states i).val = 1 ↔ (S.accepting_states i).val ≠ 0) ∧
    (S.accepting i = true ↔ lastMark ioc i reqs = some true) := by
  obtain ⟨h1, h2⟩ := run_accepting ioc hd i reqs fresh S none hrun (Or.inl rfl)
    (by simp [Store.accepting, fresh, CInt.lit])
  refine ⟨h1, ?_, h2⟩
  rcases h1 with h | h <;> rw [h] <;> decide

/-- Instance of C20: state 5 after `sampleRun`, whose last mark on 5 is Mark
Accepting. -/
theorem accepting_cells_are_boolean_witness :
    sampleCodes.Distinct ∧
    ((run sampleCodes fresh sampleRun).map fun S => S.current_state.val) = some 5 ∧
    ∃ S, run sampleCodes fresh sampleRun = some S ∧
      (((S.accepting_states 5).val = 0 ∨ (S.accepting_states 5).val = 1) ∧
        ((S.accepting_states 5).val = 1 ↔ (S.accepting_states 5).val ≠ 0) ∧
        (S.accepting 5 = true ↔ lastMark sampleCodes 5 sampleRun = some true)) ∧
      lastMark sampleCodes 5 sampleRun = some true :=
  have hd : sampleCodes.Distinct := by
    unfold IocDfa.Distinct sampleCodes
    decide
  have hsome : (run sampleCodes fresh sampleRun).isSome = true := by decide
  have hrun : run sampleCodes fresh sampleRun
      = some ((run sampleCodes fresh sampleRun).get hsome) := by simp
  ⟨hd, by decide, (run sampleCodes fresh sampleRun).get hsome, hrun,
    accepting_cells_are_boolean sampleCodes hd sampleRun _ hrun 5, by decide⟩

end Dfa
